import Mathlib

/-!
Shallow embedding of the sticker-bot core (`src/main.py`) and proofs of the
specified properties.  Strings are modelled as `List Char`; the external
configuration module (`config.py`, not part of the sources) is modelled as an
explicit `Config` value; randomness (`random.shuffle`) is modelled as an
explicitly supplied shuffled list; the telegram transport is modelled by
returning the outgoing call as data.
-/

namespace Quote

/-- A Python string, modelled as its list of characters. -/
abbrev Str := List Char

/-- The punctuation set `",.!?-"` of `into_words` (`syntax_marks` in the
source; renamed here). -/
def marks : Str := [',', '.', '!', '?', '-']

/-- `q.replace(sym, repl)` for single characters. -/
def replaceChar (sym repl : Char) (q : Str) : Str :=
  q.map (fun c => if c = sym then repl else c)

/-- The loop `for sym in syntax_marks: q = q.replace(sym, ' ')`. -/
def removeMarks (q : Str) : Str :=
  marks.foldl (fun q sym => replaceChar sym ' ' q) q

/-- The ASCII whitespace characters recognised by Python's `str.split()` /
`str.strip()` with no arguments. -/
def isSpaceChar (c : Char) : Bool :=
  c = ' ' || c = '\t' || c = '\n' || c = '\r' || c = '\x0b' || c = '\x0c'

/-- Worker for `str.split()`: accumulates the current (reversed) word in
`acc`, emitting it at each whitespace run and at the end. -/
def splitWsAux : Str → Str → List Str
  | [], acc => if acc.isEmpty then [] else [acc.reverse]
  | c :: cs, acc =>
    if isSpaceChar c then
      (if acc.isEmpty then splitWsAux cs [] else acc.reverse :: splitWsAux cs [])
    else splitWsAux cs (c :: acc)

/-- Python `s.split()`: split on whitespace runs, dropping empty pieces. -/
def splitWs (s : Str) : List Str := splitWsAux s []

/-- Python `s.strip()`: drop leading and trailing whitespace. -/
def stripChars (s : Str) : Str :=
  ((s.dropWhile isSpaceChar).reverse.dropWhile isSpaceChar).reverse

/-- Python `s.lower()` (restricted to ASCII, as all data in this program is). -/
def lowerStr (s : Str) : Str := s.map Char.toLower

/-- `into_words` (src/main.py lines 40-51): replace punctuation by spaces,
lowercase, strip, split on whitespace, strip each piece, drop empty pieces. -/
def into_words (q : Str) : List Str :=
  let q1 := removeMarks q
  let words := splitWs (stripChars (lowerStr q1))
  let words := words.map stripChars
  words.filter (fun w => !w.isEmpty)

/-- `word_in_words` (src/main.py lines 54-58): is `word` a leading part of
some element of `words` (`w.startswith(word)`)? -/
def word_in_words (word : Str) (words : List Str) : Bool :=
  words.any (fun w => word.isPrefixOf w)

/-- The keyword matcher applied in `search_stickers` (src/main.py line 68):
`all([word_in_words(w, texts_words) for w in query_words])`. -/
def matchesTokens (query_words texts_words : List Str) : Bool :=
  query_words.all (fun w => word_in_words w texts_words)

/-- Python `" ".join(ts)`. -/
def joinSpace : List Str → Str
  | [] => []
  | [t] => t
  | t :: ts => t ++ ' ' :: joinSpace ts

/-- Modelled from the spec: the external configuration module `config.py` is
not under `src/`.  It supplies the sticker index (`STICKERS`, an
insertion-ordered mapping from file id to tag strings, modelled as an
association list) and three message templates.  The two templates used with
`str.format` are modelled as the fixed text before and after their single
placeholder (`{file_id}` resp. `{stickers_count}`). -/
structure Config where
  STICKERS : List (Str × List Str)
  HYPE_MSG : Str
  STICKER_DATA_PRE : Str
  STICKER_DATA_POST : Str
  INSTRUCTIONS_PRE : Str
  INSTRUCTIONS_POST : Str
deriving DecidableEq

/-- `list(config.STICKERS.keys())`. -/
def stickerKeys (cfg : Config) : List Str := cfg.STICKERS.map (fun e => e.1)

/-- `search_stickers` (src/main.py lines 61-71): keep, in index order, the id
of every entry whose joined, lowercased, tokenized tag text matches every
query word. -/
def search_stickers (cfg : Config) (query : Str) : List Str :=
  let query_words := into_words query
  (cfg.STICKERS.filter
    (fun e => matchesTokens query_words (into_words (lowerStr (joinSpace e.2))))).map
    (fun e => e.1)

/-- `random_stickers` (src/main.py lines 74-77).  `random.shuffle` is modelled
by supplying the shuffled key list explicitly; theorems constrain it to be a
permutation of `stickerKeys cfg`. -/
def random_stickers (shuffled : List Str) (n : Nat) : List Str :=
  shuffled.take n

/-- `update.inline_query.from_user` / `message.from_user`. -/
structure User where
  id : Nat
  first_name : Str
deriving DecidableEq

/-- The inline-query payload of an update. -/
structure InlineQuery where
  id : Str
  query : Str
  from_user : User
deriving DecidableEq

/-- A sticker attachment. -/
structure Sticker where
  file_id : Str
deriving DecidableEq

/-- The message payload of an update. -/
structure Message where
  chat_id : Nat
  from_user : User
  sticker : Option Sticker
  text : Option Str
deriving DecidableEq

/-- A telegram update; either payload may be absent. -/
structure Update where
  inline_query : Option InlineQuery
  message : Option Message
deriving DecidableEq

/-- `InlineQueryResultCachedSticker(fid, fid)`. -/
structure InlineQueryResultCachedSticker where
  id : Str
  sticker_file_id : Str
deriving DecidableEq

/-- The outgoing `bot.answer_inline_query` transport call. -/
structure AnswerInlineQuery where
  inline_query_id : Str
  results : List InlineQueryResultCachedSticker
  cache_time : Nat
deriving DecidableEq

/-- The outgoing `bot.send_message` transport call. -/
structure SendMessage where
  chat_id : Nat
  text : Str
deriving DecidableEq

/-- `on_query` (src/main.py lines 93-126), with the transport call returned as
data (`none` when the handler returns without calling the transport). -/
def on_query (cfg : Config) (shuffled : List Str) (update : Update) :
    Option AnswerInlineQuery :=
  let MAX_RESULTS := 50
  match update.inline_query with
  | none => none
  | some inline_query =>
    let return_random := inline_query.query.isEmpty
    let stickers :=
      if return_random then random_stickers shuffled MAX_RESULTS
      else search_stickers cfg inline_query.query
    let stickers :=
      if stickers.length > MAX_RESULTS then stickers.take MAX_RESULTS else stickers
    let results := stickers.map (fun fid => ⟨fid, fid⟩)
    let cache_time := if return_random then 0 else 600
    some ⟨inline_query.id, results, cache_time⟩

/-- `config.STICKER_DATA_MSG.format(file_id=fid)`. -/
def fmtStickerData (cfg : Config) (fid : Str) : Str :=
  cfg.STICKER_DATA_PRE ++ fid ++ cfg.STICKER_DATA_POST

/-- `config.INSTRUCTIONS_MSG.format(stickers_count=n)`. -/
def fmtInstructions (cfg : Config) (n : Nat) : Str :=
  cfg.INSTRUCTIONS_PRE ++ (Nat.repr n).toList ++ cfg.INSTRUCTIONS_POST

/-- `on_message` (src/main.py lines 129-168), with the transport call returned
as data (`none` when the handler returns without calling the transport). -/
def on_message (cfg : Config) (update : Update) : Option SendMessage :=
  match update.message with
  | none => none
  | some message =>
    match message.sticker with
    | some s =>
      if (stickerKeys cfg).contains s.file_id then
        some ⟨message.chat_id, cfg.HYPE_MSG⟩
      else
        some ⟨message.chat_id, fmtStickerData cfg s.file_id⟩
    | none => some ⟨message.chat_id, fmtInstructions cfg cfg.STICKERS.length⟩

/-- A Python exception, reduced to its kind and message. -/
structure Exc where
  type : Str
  value : Str
deriving DecidableEq

/-- One structured log record emitted by the `log_exceptions` wrapper. -/
structure LogRecord where
  event : Str
  type : Str
  value : Str
  func : Str
deriving DecidableEq

/-- `log_exceptions` (src/main.py lines 80-90): run the wrapped handler;
a raised exception is caught and logged (kind, message, wrapped function's
name) and the wrapper returns normally with no result. -/
def log_exceptions {α β : Type} (fname : Str) (f : α → Except Exc β) :
    α → Option β × List LogRecord :=
  fun x =>
    match f x with
    | Except.ok r => (some r, [])
    | Except.error e => (none, [⟨"Exception caught".toList, e.type, e.value, fname⟩])

/-- The Tokenizer as the spec words it: replace each punctuation character by
a space, lowercase, split on whitespace (dropping empty pieces). -/
def tokenizeSpec (q : Str) : List Str :=
  splitWs (lowerStr (q.map (fun c => if marks.contains c then ' ' else c)))

/-- Example configuration: the spec's fixed index
`{A: ["red","cat"], B: ["blue","dog"]}` with simple concrete templates. -/
def cfgEx : Config :=
  ⟨[("A".toList, ["red".toList, "cat".toList]),
    ("B".toList, ["blue".toList, "dog".toList])],
   "hype".toList, "sticker:".toList, ":end".toList, "count:".toList, ":end".toList⟩


/-- Helper: the matcher is antitone in the query-token list. -/
lemma matchesTokens_anti {D Q Q2 : List Str} (hsub : Q ⊆ Q2)
    (h : matchesTokens Q2 D = true) : matchesTokens Q D = true := by
  simp only [matchesTokens, List.all_eq_true] at *
  exact fun w hw => h w (hsub hw)

/-- C1: the keyword matcher returns true iff every query token is a prefix of
at least one document token; the empty query matches vacuously, and matching
is by leading part, not equality ("cat" matches "category"). -/
theorem matcher_semantics :
    (∀ Q D : List Str, matchesTokens Q D = true ↔
      ∀ w ∈ Q, ∃ d ∈ D, ∃ t, w ++ t = d) ∧
    (∀ D : List Str, matchesTokens [] D = true) ∧
    matchesTokens ["cat".toList] ["category".toList, "dog".toList] = true ∧
    "cat".toList ≠ "category".toList := by
  refine ⟨?_, fun D => rfl, by decide, by decide⟩
  intro Q D
  simp [matchesTokens, word_in_words, List.all_eq_true, List.any_eq_true,
    List.isPrefixOf_iff_prefix, List.IsPrefix]

/-- Witness for C1 at a concrete input. -/
theorem matcher_semantics_w :
    matchesTokens [] ["dog".toList] = true :=
  matcher_semantics.2.1 ["dog".toList]

/-- C7: the matcher is antitone in the query: a sub-collection of query tokens
matches whenever the larger collection does, so adding query tokens never
enlarges the search result set. -/
theorem matcher_antitone :
    (∀ D Q Q2 : List Str, Q ⊆ Q2 →
      matchesTokens Q2 D = true → matchesTokens Q D = true) ∧
    (∀ (cfg : Config) (q q2 : Str), into_words q ⊆ into_words q2 →
      ∀ fid, fid ∈ search_stickers cfg q2 → fid ∈ search_stickers cfg q) := by
  constructor
  · exact fun D Q Q2 hsub h => matchesTokens_anti hsub h
  · intro cfg q q2 hsub fid hmem
    simp only [search_stickers, List.mem_map, List.mem_filter] at hmem ⊢
    obtain ⟨e, ⟨he, hm⟩, rfl⟩ := hmem
    exact ⟨e, ⟨he, matchesTokens_anti hsub hm⟩, rfl⟩

/-- Witness for C7 at a concrete input. -/
theorem matcher_antitone_w :
    (["cat".toList] ⊆ ["cat".toList, "ca".toList]) ∧
    matchesTokens ["cat".toList, "ca".toList] ["category".toList] = true ∧
    matchesTokens ["cat".toList] ["category".toList] = true :=
  ⟨by decide, by decide,
    matcher_antitone.1 ["category".toList] ["cat".toList] ["cat".toList, "ca".toList]
      (by decide) (by decide)⟩

/-- C2: whatever the update and index, an answered inline query carries at
most 50 results. -/
theorem query_results_le_50 (cfg : Config) (shuffled : List Str) (u : Update)
    (a : AnswerInlineQuery) (h : on_query cfg shuffled u = some a) :
    a.results.length ≤ 50 := by
  cases hiq : u.inline_query with
  | none => simp [on_query, hiq] at h
  | some iq =>
    simp only [on_query, hiq, Option.some.injEq] at h
    subst h
    simp only [List.length_map]
    have key : ∀ l : List Str, (if l.length > 50 then l.take 50 else l).length ≤ 50 := by
      intro l
      split
      · simp [List.length_take]
      · omega
    exact key _

/-- Witness for C2 at a concrete input. -/
theorem query_results_le_50_w :
    on_query cfgEx [] ⟨some ⟨"q1".toList, "re".toList, ⟨7, "u".toList⟩⟩, none⟩ =
      some ⟨"q1".toList, [⟨"A".toList, "A".toList⟩], 600⟩ ∧
    (AnswerInlineQuery.mk ("q1".toList) [⟨"A".toList, "A".toList⟩] 600).results.length ≤ 50 :=
  ⟨by decide,
    query_results_le_50 cfgEx [] ⟨some ⟨"q1".toList, "re".toList, ⟨7, "u".toList⟩⟩, none⟩
      ⟨"q1".toList, [⟨"A".toList, "A".toList⟩], 600⟩ (by decide)⟩

/-- C3 counterexample: a whitespace-only query (" ") is NOT treated as empty:
it takes the deterministic search branch (its token list is empty, so every
entry matches) and is answered with cache time 600, not 0. -/
theorem whitespace_query_not_random :
    on_query cfgEx [] ⟨some ⟨"q1".toList, [' '], ⟨7, "u".toList⟩⟩, none⟩ =
      some ⟨"q1".toList, [⟨"A".toList, "A".toList⟩, ⟨"B".toList, "B".toList⟩], 600⟩ ∧
    (600 : Nat) ≠ 0 := by
  exact ⟨by decide, by decide⟩

/-- C3 (amended): when the query text is the empty string, the responder
answers with up to 50 identifiers taken from the shuffled index keys and a
cache time of 0; whitespace-only queries do not take this branch. -/
theorem empty_query_random (cfg : Config) (shuffled : List Str)
    (hperm : shuffled.Perm (stickerKeys cfg)) (qid : Str) (usr : User) :
    on_query cfg shuffled ⟨some ⟨qid, [], usr⟩, none⟩ =
      some ⟨qid, (random_stickers shuffled 50).map (fun fid => ⟨fid, fid⟩), 0⟩ ∧
    (random_stickers shuffled 50).length ≤ 50 ∧
    ∀ fid ∈ random_stickers shuffled 50, fid ∈ stickerKeys cfg := by
  have hlen : (random_stickers shuffled 50).length ≤ 50 := by
    simp [random_stickers, List.length_take]
  refine ⟨?_, hlen, ?_⟩
  · simp only [on_query, List.isEmpty_nil, if_true]
    rw [if_neg (by omega)]
  · intro fid hmem
    exact hperm.mem_iff.mp (List.mem_of_mem_take hmem)

/-- Witness for C3's amended theorem at a concrete input. -/
theorem empty_query_random_w :
    (["B".toList, "A".toList].Perm (stickerKeys cfgEx)) ∧
    on_query cfgEx ["B".toList, "A".toList] ⟨some ⟨"q1".toList, [], ⟨7, "u".toList⟩⟩, none⟩ =
      some ⟨"q1".toList, [⟨"B".toList, "B".toList⟩, ⟨"A".toList, "A".toList⟩], 0⟩ :=
  ⟨by decide, by
    have h := empty_query_random cfgEx ["B".toList, "A".toList] (by decide)
      ("q1".toList) ⟨7, "u".toList⟩
    exact h.1.trans (by decide)⟩

/-- C4: a non-empty query is tokenized and answered with the keyword-matcher
search hits in index order, truncated to 50, with cache time 600; the answer
does not depend on the random shuffle. -/
theorem nonempty_query_search (cfg : Config) (shuffled : List Str) (qid q : Str)
    (usr : User) (h : q ≠ []) :
    on_query cfg shuffled ⟨some ⟨qid, q, usr⟩, none⟩ =
      some ⟨qid, ((search_stickers cfg q).take 50).map (fun fid => ⟨fid, fid⟩), 600⟩ ∧
    search_stickers cfg q =
      (cfg.STICKERS.filter (fun e =>
        matchesTokens (into_words q) (into_words (lowerStr (joinSpace e.2))))).map
        (fun e => e.1) ∧
    (∀ shuffled2 : List Str,
      on_query cfg shuffled2 ⟨some ⟨qid, q, usr⟩, none⟩ =
      on_query cfg shuffled ⟨some ⟨qid, q, usr⟩, none⟩) := by
  have hq : q.isEmpty = false := by
    cases q with
    | nil => exact absurd rfl h
    | cons c cs => rfl
  refine ⟨?_, rfl, ?_⟩
  · simp only [on_query, hq, Bool.false_eq_true, if_false]
    by_cases h50 : (search_stickers cfg q).length > 50
    · rw [if_pos h50]
    · rw [if_neg h50, List.take_of_length_le (by omega)]
  · intro shuffled2
    simp only [on_query, hq, Bool.false_eq_true, if_false]

/-- Witness for C4 at a concrete input (the spec's example: query "re" on the
index {A: [red, cat], B: [blue, dog]} answers ["A"]). -/
theorem nonempty_query_search_w :
    ("re".toList ≠ []) ∧
    on_query cfgEx [] ⟨some ⟨"q1".toList, "re".toList, ⟨7, "u".toList⟩⟩, none⟩ =
      some ⟨"q1".toList, [⟨"A".toList, "A".toList⟩], 600⟩ :=
  ⟨by decide, by
    have h := (nonempty_query_search cfgEx [] ("q1".toList) ("re".toList)
      ⟨7, "u".toList⟩ (by decide)).1
    exact h.trans (by decide)⟩

/-- C5: the message responder replies exactly once per inbound message, by a
three-way classification: known sticker → hype template; unknown sticker →
template embedding that exact identifier; non-sticker → instructions template
embedding the index's current size. -/
theorem message_responder (cfg : Config) (m : Message) :
    (on_message cfg ⟨none, some m⟩).isSome = true ∧
    (∀ s : Sticker, m.sticker = some s →
      (stickerKeys cfg).contains s.file_id = true →
      on_message cfg ⟨none, some m⟩ = some ⟨m.chat_id, cfg.HYPE_MSG⟩) ∧
    (∀ s : Sticker, m.sticker = some s →
      (stickerKeys cfg).contains s.file_id = false →
      on_message cfg ⟨none, some m⟩ =
        some ⟨m.chat_id,
          cfg.STICKER_DATA_PRE ++ s.file_id ++ cfg.STICKER_DATA_POST⟩) ∧
    (m.sticker = none →
      on_message cfg ⟨none, some m⟩ =
        some ⟨m.chat_id,
          cfg.INSTRUCTIONS_PRE ++ (Nat.repr cfg.STICKERS.length).toList ++
            cfg.INSTRUCTIONS_POST⟩) := by
  refine ⟨?_, ?_, ?_, ?_⟩
  · cases hms : m.sticker with
    | none => simp [on_message, hms]
    | some s =>
      simp only [on_message, hms]
      split <;> rfl
  · intro s hs hk
    simp only [List.contains_eq_any_beq, List.any_eq_true, beq_iff_eq] at hk
    obtain ⟨k, hkmem, rfl⟩ := hk
    simp [on_message, hs, hkmem]
  · intro s hs hk
    have hk2 : s.file_id ∉ stickerKeys cfg := by
      intro hmem
      rw [List.contains_eq_any_beq] at hk
      have : (stickerKeys cfg).any (s.file_id == ·) = true :=
        List.any_eq_true.mpr ⟨s.file_id, hmem, beq_self_eq_true _⟩
      rw [hk] at this
      cases this
    simp [on_message, hs, hk2, fmtStickerData]
  · intro hs
    simp [on_message, hs, fmtInstructions]

/-- Witness for C5 at a concrete input. -/
theorem message_responder_w :
    ((Message.mk 5 ⟨7, "u".toList⟩ (some ⟨"A".toList⟩) none).sticker =
      some ⟨"A".toList⟩) ∧
    (stickerKeys cfgEx).contains ("A".toList) = true ∧
    on_message cfgEx ⟨none, some ⟨5, ⟨7, "u".toList⟩, some ⟨"A".toList⟩, none⟩⟩ =
      some ⟨5, cfgEx.HYPE_MSG⟩ :=
  ⟨rfl, by decide,
    (message_responder cfgEx ⟨5, ⟨7, "u".toList⟩, some ⟨"A".toList⟩, none⟩).2.1
      ⟨"A".toList⟩ rfl (by decide)⟩

/-- C9: an exception raised inside a wrapped handler is caught at the
boundary, logged with its kind, message, and the handler's name, and the
wrapper returns normally with no result (no reply, no propagation). -/
theorem handler_exceptions_logged {α β : Type} (fname : Str)
    (f : α → Except Exc β) (x : α) (e : Exc) (h : f x = Except.error e) :
    log_exceptions fname f x =
      (none, [⟨"Exception caught".toList, e.type, e.value, fname⟩]) := by
  simp [log_exceptions, h]

/-- Witness for C9 at a concrete input. -/
theorem handler_exceptions_logged_w :
    ((fun _ : Nat =>
        (Except.error ⟨"KeyError".toList, "boom".toList⟩ : Except Exc Nat)) 0 =
      Except.error ⟨"KeyError".toList, "boom".toList⟩) ∧
    log_exceptions ("on_query".toList)
      (fun _ : Nat =>
        (Except.error ⟨"KeyError".toList, "boom".toList⟩ : Except Exc Nat)) 0 =
      (none,
       [⟨"Exception caught".toList, "KeyError".toList, "boom".toList,
         "on_query".toList⟩]) :=
  ⟨rfl, handler_exceptions_logged ("on_query".toList)
    (fun _ : Nat =>
      (Except.error ⟨"KeyError".toList, "boom".toList⟩ : Except Exc Nat))
    0 ⟨"KeyError".toList, "boom".toList⟩ rfl⟩

/-- C10: each handler is a no-op when its payload is missing: no inline query
and no message mean no transport call. -/
theorem missing_payload_noop :
    (∀ (cfg : Config) (shuffled : List Str) (msg : Option Message),
      on_query cfg shuffled ⟨none, msg⟩ = none) ∧
    (∀ (cfg : Config) (iq : Option InlineQuery),
      on_message cfg ⟨iq, none⟩ = none) :=
  ⟨fun _ _ _ => rfl, fun _ _ => rfl⟩

/-- Witness for C10 at a concrete input. -/
theorem missing_payload_noop_w :
    on_query cfgEx [] ⟨none, none⟩ = none :=
  missing_payload_noop.1 cfgEx [] none

lemma removeMarks_eq_map (q : Str) :
    removeMarks q = q.map (fun c => if marks.contains c then ' ' else c) := by
  simp only [removeMarks, marks, List.foldl_cons, List.foldl_nil, replaceChar,
    List.map_map]
  apply List.map_congr_left
  intro c _
  simp only [Function.comp]
  by_cases h : c ∈ marks
  · simp only [marks, List.mem_cons, List.not_mem_nil, or_false] at h
    rcases h with rfl | rfl | rfl | rfl | rfl <;> decide
  · simp only [marks, List.mem_cons, List.not_mem_nil, or_false, not_or] at h
    obtain ⟨h1, h2, h3, h4, h5⟩ := h
    simp [h1, h2, h3, h4, h5, List.contains_eq_any_beq]

lemma splitWsAux_dropWhile (s : Str) :
    splitWsAux (s.dropWhile isSpaceChar) [] = splitWsAux s [] := by
  induction s with
  | nil => rfl
  | cons c cs ih =>
    by_cases hc : isSpaceChar c
    · rw [List.dropWhile_cons]
      simp [hc, splitWsAux, ih]
    · rw [List.dropWhile_cons]
      simp [hc]

lemma splitWsAux_all_space (v : Str) (hv : ∀ c ∈ v, isSpaceChar c = true) :
    ∀ acc : Str, splitWsAux v acc = if acc.isEmpty then [] else [acc.reverse] := by
  induction v with
  | nil => intro acc; rfl
  | cons c cs ih =>
    intro acc
    have hc : isSpaceChar c = true := hv c (by simp)
    have ihcs := ih (fun d hd => hv d (by simp [hd]))
    by_cases ha : acc.isEmpty
    · simp [splitWsAux, hc, ha, ihcs]
    · simp [splitWsAux, hc, ha, ihcs]

lemma splitWsAux_append_space (u v : Str) (hv : ∀ c ∈ v, isSpaceChar c = true) :
    ∀ acc : Str, splitWsAux (u ++ v) acc = splitWsAux u acc := by
  induction u with
  | nil =>
    intro acc
    rw [List.nil_append, splitWsAux_all_space v hv acc]
    rfl
  | cons c cs ih =>
    intro acc
    by_cases hc : isSpaceChar c <;> simp [splitWsAux, hc, ih]

lemma splitWs_stripChars (s : Str) :
    splitWs (stripChars s) = splitWs s := by
  unfold splitWs
  rw [← splitWsAux_dropWhile s]
  have hdecomp : s.dropWhile isSpaceChar =
      ((s.dropWhile isSpaceChar).reverse.dropWhile isSpaceChar).reverse ++
        ((s.dropWhile isSpaceChar).reverse.takeWhile isSpaceChar).reverse := by
    rw [← List.reverse_append, List.takeWhile_append_dropWhile, List.reverse_reverse]
  have htrail : ∀ c ∈ ((s.dropWhile isSpaceChar).reverse.takeWhile isSpaceChar).reverse,
      isSpaceChar c = true := by
    intro c hc
    rw [List.mem_reverse] at hc
    exact List.mem_takeWhile_imp hc
  calc splitWsAux (stripChars s) []
      = splitWsAux (((s.dropWhile isSpaceChar).reverse.dropWhile isSpaceChar).reverse ++
          ((s.dropWhile isSpaceChar).reverse.takeWhile isSpaceChar).reverse) [] :=
        (splitWsAux_append_space _ _ htrail []).symm
    _ = splitWsAux (s.dropWhile isSpaceChar) [] := by rw [← hdecomp]

lemma mem_splitWsAux {w : Str} :
    ∀ (s acc : Str), (∀ c ∈ acc, isSpaceChar c = false) →
    w ∈ splitWsAux s acc →
    w ≠ [] ∧ ∀ c ∈ w, isSpaceChar c = false ∧ (c ∈ s ∨ c ∈ acc) := by
  intro s
  induction s with
  | nil =>
    intro acc hacc hw
    simp only [splitWsAux] at hw
    by_cases ha : acc.isEmpty
    · rw [if_pos ha] at hw
      simp at hw
    · rw [if_neg ha, List.mem_singleton] at hw
      subst hw
      constructor
      · intro hrev
        rw [List.reverse_eq_nil_iff] at hrev
        subst hrev
        simp at ha
      · intro c hc
        rw [List.mem_reverse] at hc
        exact ⟨hacc c hc, Or.inr hc⟩
  | cons b bs ih =>
    intro acc hacc hw
    simp only [splitWsAux] at hw
    by_cases hb : isSpaceChar b
    · rw [if_pos hb] at hw
      by_cases ha : acc.isEmpty
      · rw [if_pos ha] at hw
        obtain ⟨hne, hall⟩ := ih [] (by simp) hw
        exact ⟨hne, fun c hc => ⟨(hall c hc).1, by
          rcases (hall c hc).2 with h | h
          · exact Or.inl (by simp [h])
          · simp at h⟩⟩
      · rw [if_neg ha, List.mem_cons] at hw
        rcases hw with hw | hw
        · subst hw
          constructor
          · intro hrev
            rw [List.reverse_eq_nil_iff] at hrev
            subst hrev
            simp at ha
          · intro c hc
            rw [List.mem_reverse] at hc
            exact ⟨hacc c hc, Or.inr hc⟩
        · obtain ⟨hne, hall⟩ := ih [] (by simp) hw
          exact ⟨hne, fun c hc => ⟨(hall c hc).1, by
            rcases (hall c hc).2 with h | h
            · exact Or.inl (by simp [h])
            · simp at h⟩⟩
    · rw [if_neg hb] at hw
      have hacc2 : ∀ c ∈ b :: acc, isSpaceChar c = false := by
        intro c hc
        rcases List.mem_cons.mp hc with h | h
        · subst h; simpa using hb
        · exact hacc c h
      obtain ⟨hne, hall⟩ := ih (b :: acc) hacc2 hw
      refine ⟨hne, fun c hc => ⟨(hall c hc).1, ?_⟩⟩
      rcases (hall c hc).2 with h | h
      · exact Or.inl (by simp [h])
      · rcases List.mem_cons.mp h with h2 | h2
        · exact Or.inl (by simp [h2])
        · exact Or.inr h2

lemma mem_splitWs {w s : Str} (hw : w ∈ splitWs s) :
    w ≠ [] ∧ ∀ c ∈ w, isSpaceChar c = false ∧ c ∈ s := by
  obtain ⟨hne, hall⟩ := mem_splitWsAux s [] (by simp) hw
  refine ⟨hne, fun c hc => ⟨(hall c hc).1, ?_⟩⟩
  rcases (hall c hc).2 with h | h
  · exact h
  · simp at h

lemma dropWhile_eq_self_of {w : Str} (h : ∀ c ∈ w, isSpaceChar c = false) :
    w.dropWhile isSpaceChar = w := by
  cases w with
  | nil => rfl
  | cons c cs =>
    rw [List.dropWhile_cons]
    simp [h c (by simp)]

lemma stripChars_eq_self {w : Str} (h : ∀ c ∈ w, isSpaceChar c = false) :
    stripChars w = w := by
  unfold stripChars
  rw [dropWhile_eq_self_of h, dropWhile_eq_self_of (by
    intro c hc
    rw [List.mem_reverse] at hc
    exact h c hc), List.reverse_reverse]

lemma into_words_eq (q : Str) :
    into_words q = splitWs (lowerStr (removeMarks q)) := by
  have hdef : into_words q = List.filter (fun w => !w.isEmpty)
      ((splitWs (stripChars (lowerStr (removeMarks q)))).map stripChars) := rfl
  rw [hdef, splitWs_stripChars]
  have hmap : (splitWs (lowerStr (removeMarks q))).map stripChars =
      splitWs (lowerStr (removeMarks q)) := by
    have h1 : (splitWs (lowerStr (removeMarks q))).map stripChars =
        (splitWs (lowerStr (removeMarks q))).map id :=
      List.map_congr_left (fun w hw =>
        stripChars_eq_self (fun c hc => ((mem_splitWs hw).2 c hc).1))
    rw [h1, List.map_id]
  rw [hmap]
  rw [List.filter_eq_self.mpr]
  intro w hw
  simpa using (mem_splitWs hw).1

lemma toNat_ofNat_valid {n : Nat} (h : n.isValidChar) :
    (Char.ofNat n).toNat = n := by
  rw [Char.ofNat, dif_pos h]
  rfl

lemma toLower_eq (c : Char) :
    (65 ≤ c.toNat ∧ c.toNat ≤ 90 ∧ (Char.toLower c).toNat = c.toNat + 32) ∨
    Char.toLower c = c := by
  by_cases h : c.toNat ≥ 65 ∧ c.toNat ≤ 90
  · left
    refine ⟨h.1, h.2, ?_⟩
    rw [Char.toLower, if_pos h]
    exact toNat_ofNat_valid (Or.inl (by omega))
  · right
    rw [Char.toLower, if_neg h]

lemma toLower_toLower (c : Char) :
    Char.toLower (Char.toLower c) = Char.toLower c := by
  rcases toLower_eq c with ⟨h1, h2, h3⟩ | h
  · rcases toLower_eq (Char.toLower c) with ⟨g1, g2, g3⟩ | g
    · omega
    · exact g
  · rw [h, h]

lemma marks_contains_eq_false {d : Char} (h97 : 97 ≤ d.toNat) :
    marks.contains d = false := by
  rw [List.contains_eq_any_beq]
  simp only [marks, List.any_cons, List.any_nil, Bool.or_false,
    Bool.or_eq_false_iff, beq_eq_false_iff_ne]
  refine ⟨fun he => ?_, fun he => ?_, fun he => ?_, fun he => ?_, fun he => ?_⟩ <;>
    (subst he; exact absurd h97 (by decide))

lemma marks_contains_toLower {c : Char} (h : marks.contains c = false) :
    marks.contains (Char.toLower c) = false := by
  rcases toLower_eq c with ⟨h1, h2, h3⟩ | he
  · exact marks_contains_eq_false (by omega)
  · rw [he]
    exact h

lemma removeMarks_no_marks {d : Char} {s : Str} (hd : d ∈ removeMarks s) :
    marks.contains d = false := by
  rw [removeMarks_eq_map] at hd
  obtain ⟨x, hx, rfl⟩ := List.mem_map.mp hd
  by_cases hxm : marks.contains x
  · simp only [hxm, if_true]
    decide
  · simp only [Bool.not_eq_true] at hxm
    simp only [hxm, Bool.false_eq_true, if_false]

lemma mem_joinSpace {c : Char} :
    ∀ {ws : List Str}, c ∈ joinSpace ws → c = ' ' ∨ ∃ w ∈ ws, c ∈ w := by
  intro ws
  induction ws with
  | nil =>
    intro h
    simp [joinSpace] at h
  | cons w ws ih =>
    cases ws with
    | nil =>
      intro h
      right
      exact ⟨w, by simp, h⟩
    | cons w2 ws2 =>
      intro h
      have hj : joinSpace (w :: w2 :: ws2) = w ++ ' ' :: joinSpace (w2 :: ws2) := rfl
      rw [hj] at h
      rcases List.mem_append.mp h with h | h
      · exact Or.inr ⟨w, by simp, h⟩
      · rcases List.mem_cons.mp h with h | h
        · exact Or.inl h
        · rcases ih h with h | ⟨w3, hw3, hc3⟩
          · exact Or.inl h
          · exact Or.inr ⟨w3, by simp [hw3], hc3⟩

lemma removeMarks_eq_self {l : Str} (h : ∀ c ∈ l, marks.contains c = false) :
    removeMarks l = l := by
  rw [removeMarks_eq_map]
  have h1 : l.map (fun c => if marks.contains c then ' ' else c) = l.map id :=
    List.map_congr_left (fun c hc => by
      simp only [h c hc, Bool.false_eq_true, if_false, id])
  rw [h1, List.map_id]

lemma lowerStr_eq_self {l : Str} (h : ∀ c ∈ l, Char.toLower c = c) :
    lowerStr l = l := by
  have h1 : l.map Char.toLower = l.map id := List.map_congr_left (fun c hc => h c hc)
  rw [lowerStr, h1, List.map_id]

lemma splitWsAux_append_word (w : Str) :
    (∀ c ∈ w, isSpaceChar c = false) →
    ∀ (s acc : Str), splitWsAux (w ++ s) acc = splitWsAux s (w.reverse ++ acc) := by
  induction w with
  | nil =>
    intro _ s acc
    rfl
  | cons c cs ih =>
    intro hw s acc
    have hc : isSpaceChar c = false := hw c (by simp)
    have hrest := ih (fun d hd => hw d (by simp [hd])) s (c :: acc)
    simp only [List.cons_append, splitWsAux, hc, Bool.false_eq_true, if_false]
    exact hrest.trans (by simp [List.reverse_cons, List.append_assoc])

lemma splitWs_joinSpace :
    ∀ ws : List Str,
    (∀ w ∈ ws, w ≠ [] ∧ ∀ c ∈ w, isSpaceChar c = false) →
    splitWs (joinSpace ws) = ws := by
  intro ws
  induction ws with
  | nil => intro _; rfl
  | cons w ws ih =>
    intro h
    obtain ⟨hne, hsp⟩ := h w (by simp)
    have hacc : w.reverse.isEmpty = false := by
      rw [List.isEmpty_eq_false, ne_eq, List.reverse_eq_nil_iff]
      exact hne
    cases ws with
    | nil =>
      have hj : joinSpace [w] = w := rfl
      rw [hj]
      unfold splitWs
      have happ := splitWsAux_append_word w hsp [] []
      rw [List.append_nil] at happ
      rw [happ, List.append_nil]
      show (if w.reverse.isEmpty = true then [] else [w.reverse.reverse]) = [w]
      rw [hacc]
      simp
    | cons w2 ws2 =>
      have hj : joinSpace (w :: w2 :: ws2) = w ++ ' ' :: joinSpace (w2 :: ws2) := rfl
      rw [hj]
      unfold splitWs
      rw [splitWsAux_append_word w hsp, List.append_nil]
      have hsp2 : isSpaceChar ' ' = true := rfl
      show (if isSpaceChar ' ' = true then
          (if w.reverse.isEmpty = true then splitWsAux (joinSpace (w2 :: ws2)) []
           else w.reverse.reverse :: splitWsAux (joinSpace (w2 :: ws2)) [])
        else splitWsAux (joinSpace (w2 :: ws2)) (' ' :: w.reverse)) = w :: w2 :: ws2
      rw [if_pos hsp2, hacc]
      simp only [Bool.false_eq_true, if_false, List.reverse_reverse]
      have htail := ih (fun v hv => h v (List.mem_cons_of_mem w hv))
      rw [show splitWsAux (joinSpace (w2 :: ws2)) [] = splitWs (joinSpace (w2 :: ws2)) from rfl,
        htail]

/-- C6: the tokenizer agrees everywhere with the spec's pipeline (replace
punctuation by spaces, lowercase, split on whitespace dropping empty pieces);
in particular on the spec's two examples.  It is a total function: no input
raises an error. -/
theorem tokenizer_spec :
    (∀ q : Str, into_words q = tokenizeSpec q) ∧
    into_words ("Cats, dogs! and-birds.".toList) =
      ["cats".toList, "dogs".toList, "and".toList, "birds".toList] ∧
    into_words ([] : Str) = [] := by
  refine ⟨?_, by decide, rfl⟩
  intro q
  rw [into_words_eq, removeMarks_eq_map]
  rfl

/-- Witness for C6 at a concrete input. -/
theorem tokenizer_spec_w :
    into_words ("Hi there!".toList) = tokenizeSpec ("Hi there!".toList) :=
  tokenizer_spec.1 ("Hi there!".toList)

/-- C8: the tokenizer is idempotent: space-joining any tokenizer output and
tokenizing again reproduces exactly the same token sequence. -/
theorem tokenizer_idempotent (s : Str) :
    into_words (joinSpace (into_words s)) = into_words s := by
  have hs := into_words_eq s
  have hpieces : ∀ w ∈ into_words s,
      w ≠ [] ∧ ∀ c ∈ w, isSpaceChar c = false ∧ c ∈ lowerStr (removeMarks s) := by
    rw [hs]
    exact fun w hw => mem_splitWs hw
  have hchar : ∀ c ∈ lowerStr (removeMarks s),
      Char.toLower c = c ∧ marks.contains c = false := by
    intro c hc
    obtain ⟨d, hd, rfl⟩ := List.mem_map.mp hc
    exact ⟨toLower_toLower d, marks_contains_toLower (removeMarks_no_marks hd)⟩
  have hjoin : ∀ c ∈ joinSpace (into_words s),
      Char.toLower c = c ∧ marks.contains c = false := by
    intro c hc
    rcases mem_joinSpace hc with rfl | ⟨w, hw, hcw⟩
    · exact ⟨rfl, by decide⟩
    · exact hchar c (((hpieces w hw).2 c hcw).2)
  rw [into_words_eq (joinSpace (into_words s)),
    removeMarks_eq_self (fun c hc => (hjoin c hc).2),
    lowerStr_eq_self (fun c hc => (hjoin c hc).1),
    splitWs_joinSpace (into_words s)
      (fun w hw => ⟨(hpieces w hw).1, fun c hc => ((hpieces w hw).2 c hc).1⟩)]

/-- Witness for C8 at a concrete input. -/
theorem tokenizer_idempotent_w :
    into_words (joinSpace (into_words ("Red CAT!".toList))) =
      into_words ("Red CAT!".toList) :=
  tokenizer_idempotent ("Red CAT!".toList)

end Quote
